import Mathlib

/-!
Verification development for the diff/patch engine of the Diff-Code-Assistant
repository.  The Python sources `src/main.py` and `src/main_enhanced.py` are
embedded shallowly: Python strings become `List Char`, Python `int` becomes
`Int` (with `Nat` where the source can only produce non-negative values),
Python lists become Lean lists, and the two `while`/`for` loops of the parser
and the hunk applier become structural recursions over the remaining input.
Fallible operations (list subscripts that Python could raise on) are mirrored
by `Except`-valued variants.  Python's list values are modelled immutably:
a list appended into a result is a snapshot, which agrees with the source on
every input considered here.
-/

namespace DiffAsst

abbrev Line := List Char

/-- Whitespace class used to model Python `str.strip` / `str.rstrip`
(the sources only ever meet ASCII whitespace). -/
def isWS (c : Char) : Bool := c.isWhitespace

/-- Python `s.rstrip()`. -/
def pyRstrip (l : Line) : Line := (l.reverse.dropWhile isWS).reverse

/-- Python `s.strip()`. -/
def pyStrip (l : Line) : Line := pyRstrip (l.dropWhile isWS)

/-- Python `s.split(c)` for a one-character separator. -/
def splitOnChar (c : Char) : List Char → List (List Char)
  | [] => [[]]
  | a :: rest =>
    match splitOnChar c rest with
    | [] => [[]]
    | g :: gs => if a = c then [] :: g :: gs else (a :: g) :: gs

/-- Python `s.split(sep)[0]` for the tab separator: everything before the
first tab (the whole string when no tab occurs). -/
def beforeTab (l : Line) : Line := l.takeWhile (fun c => !(c = '\t'))

/-- Python `str(n)` for a natural number, as used in the validator's
error message. -/
def pyRepr (n : Nat) : Line := Nat.toDigits 10 n

/-- Numeric value of a digit string, as computed by Python `int`. -/
def digitsVal (ds : List Char) : Nat := ds.foldl (fun n c => 10 * n + (c.toNat - 48)) 0

/-- Consume a maximal non-empty run of digits (regex `\d+`). -/
def takeNum (l : Line) : Option (Nat × Line) :=
  let ds := l.takeWhile Char.isDigit
  if ds.isEmpty then none else some (digitsVal ds, l.dropWhile Char.isDigit)

/-- Consume the optional group `(?:,\d+)?`.  When the comma is present but no
digit follows, the regex engine backtracks to not taking the group, so the
input is returned unchanged. -/
def takeCommaNum (l : Line) : Option Nat × Line :=
  match l with
  | ',' :: r =>
    match takeNum r with
    | some (n, r') => (some n, r')
    | none => (none, ',' :: r)
  | _ => (none, l)

/-- Consume a literal piece of the pattern. -/
def dropLit (p : Line) (l : Line) : Option Line :=
  if p.isPrefixOf l then some (l.drop p.length) else none

/-- Model of `re.match(r'@@ -(\d+)(?:,(\d+))? \+(\d+)(?:,(\d+))? @@', line)`
from `parse_diff` (the validator uses the same pattern without capture
groups).  `re.match` anchors at the start only, so trailing text after the
closing `@@` is accepted.  The four results are the captured groups, the
optional counts staying `none` when their group did not participate. -/
def matchHunkHeader (l : Line) : Option (Nat × Option Nat × Nat × Option Nat) := do
  let r1 ← dropLit "@@ -".toList l
  let (n1, r2) ← takeNum r1
  let (c1, r3) := takeCommaNum r2
  let r4 ← dropLit " +".toList r3
  let (n2, r5) ← takeNum r4
  let (c2, r6) := takeCommaNum r5
  let _ ← dropLit " @@".toList r6
  pure (n1, c1, n2, c2)

/-- `DiffHunk` NamedTuple of both sources.  Python ints are modelled by
`Int` (in `apply_hunk_to_lines` the cursor `old_start - 1` can be `-1`). -/
structure DiffHunk where
  old_start : Int
  old_count : Int
  new_start : Int
  new_count : Int
  lines : List Line
deriving DecidableEq

/-- `FileChange` NamedTuple of both sources, with its two defaulted flags. -/
structure FileChange where
  old_path : Line
  new_path : Line
  hunks : List DiffHunk
  is_new_file : Bool := false
  is_deleted_file : Bool := false
deriving DecidableEq

/-- Build a `DiffHunk` from a matched header, applying the
`int(match.group(2) or 1)` defaulting of both sources. -/
def mkHunk (q : Nat × Option Nat × Nat × Option Nat) (ls : List Line) : DiffHunk :=
  ⟨(q.1 : Int), ((q.2.1.getD 1 : Nat) : Int), (q.2.2.1 : Int), ((q.2.2.2.getD 1 : Nat) : Int), ls⟩

/-- The mutable locals of both `parse_diff` loops. -/
structure PState where
  file_changes : List FileChange
  current_file : Option (Line × Line)
  current_hunks : List DiffHunk
  current_hunk : Option (Nat × Option Nat × Nat × Option Nat)
  current_hunk_lines : List Line

def initPState : PState := ⟨[], none, [], none, []⟩

namespace Main

/-- `src/main.py` old-path normalization:
`line[4:].strip().split('\t')[0]`, then strip a leading `a/`. -/
def oldPathOf (line : Line) : Line :=
  let p := beforeTab (pyStrip (line.drop 4))
  if ("a/".toList).isPrefixOf p then p.drop 2 else p

/-- `src/main.py` new-path normalization: same, stripping a leading `b/`. -/
def newPathOf (line : Line) : Line :=
  let p := beforeTab (pyStrip (line.drop 4))
  if ("b/".toList).isPrefixOf p then p.drop 2 else p

/-- The flush performed at a new `--- ` header and at end of input:
`if current_file and current_hunks:` — the pending `current_hunk` is folded
in only when the completed-hunks list is already non-empty. -/
def flushFile (st : PState) : List FileChange :=
  match st.current_file with
  | none => st.file_changes
  | some (op, np) =>
    if st.current_hunks.isEmpty then st.file_changes
    else
      match st.current_hunk with
      | some q => st.file_changes ++ [⟨op, np, st.current_hunks ++ [mkHunk q st.current_hunk_lines], false, false⟩]
      | none => st.file_changes ++ [⟨op, np, st.current_hunks, false, false⟩]

/-- State update by the `elif`-chain of `src/main.py`'s loop body for a
line that is not a `--- ` header: the `@@` branch (flush the pending hunk,
then install the matched header, or keep the stale state when the header
does not match) and the hunk-body branch
(`current_hunk and line and line[0] in ' +-'`). -/
def stepOther (line : Line) (st : PState) : PState :=
  if ("@@".toList).isPrefixOf line then
    let hs :=
      match st.current_hunk with
      | some q => st.current_hunks ++ [mkHunk q st.current_hunk_lines]
      | none => st.current_hunks
    match matchHunkHeader line with
    | some q => ⟨st.file_changes, st.current_file, hs, some q, []⟩
    | none => ⟨st.file_changes, st.current_file, hs, st.current_hunk, st.current_hunk_lines⟩
  else
    match st.current_hunk, line with
    | some _, c :: _ =>
      if c = ' ' ∨ c = '+' ∨ c = '-' then
        { st with current_hunk_lines := st.current_hunk_lines ++ [line] }
      else st
    | _, _ => st

/-- State after a `--- ` header line with no `+++ ` line following:
`new_path = old_path`. -/
def headerState (line : Line) (st : PState) : PState :=
  ⟨flushFile st, some (oldPathOf line, oldPathOf line), [], none, []⟩

/-- State after a `--- ` header line whose successor is a `+++ ` line
(which is consumed by the `i += 1` of the source). -/
def headerState2 (line next : Line) (st : PState) : PState :=
  ⟨flushFile st, some (oldPathOf line, newPathOf next), [], none, []⟩

/-- The `while i < len(lines)` loop of `src/main.py`'s `parse_diff`,
consuming the remaining lines.  The `--- ` branch peeks at `lines[i + 1]`
and consumes it when it is a `+++ ` header. -/
def parseLoop : List Line → PState → List FileChange
  | [], st => flushFile st
  | [line], st =>
    if ("--- ".toList).isPrefixOf line then parseLoop [] (headerState line st)
    else parseLoop [] (stepOther line st)
  | line :: next :: rest2, st =>
    if ("--- ".toList).isPrefixOf line then
      if ("+++ ".toList).isPrefixOf next then parseLoop rest2 (headerState2 line next st)
      else parseLoop (next :: rest2) (headerState line st)
    else parseLoop (next :: rest2) (stepOther line st)

/-- `src/main.py` `parse_diff`. -/
def parse_diff (t : Line) : List FileChange :=
  if pyStrip t = [] then []
  else parseLoop (splitOnChar '\n' (pyStrip t)) initPState

end Main

namespace Enh

/-- `src/main_enhanced.py` path normalization: `line[4:].strip()` (no tab
handling), then strip a leading `a/` or `b/`.  Used for both sides. -/
def pathOf (line : Line) : Line :=
  let p := pyStrip (line.drop 4)
  if ("a/".toList).isPrefixOf p then p.drop 2
  else if ("b/".toList).isPrefixOf p then p.drop 2
  else p

/-- The flush of `src/main_enhanced.py`: `if current_file:` alone guards the
file, and the pending hunk is folded in when
`current_hunk and current_hunk_lines` are both non-empty. -/
def flushFile (st : PState) : List FileChange :=
  match st.current_file with
  | none => st.file_changes
  | some (op, np) =>
    match st.current_hunk with
    | some q =>
      if st.current_hunk_lines.isEmpty then st.file_changes ++ [⟨op, np, st.current_hunks, false, false⟩]
      else st.file_changes ++ [⟨op, np, st.current_hunks ++ [mkHunk q st.current_hunk_lines], false, false⟩]
    | none => st.file_changes ++ [⟨op, np, st.current_hunks, false, false⟩]

/-- State update by the `elif`-chain of `src/main_enhanced.py`'s loop body
for a line that is not a `--- ` header: the `@@` branch (the pending hunk is
flushed only when `current_hunk and current_hunk_lines` are both non-empty)
and the hunk-body branch (`startswith` tests). -/
def stepOther (line : Line) (st : PState) : PState :=
  if ("@@".toList).isPrefixOf line then
    let hs :=
      match st.current_hunk with
      | some q =>
        if st.current_hunk_lines.isEmpty then st.current_hunks
        else st.current_hunks ++ [mkHunk q st.current_hunk_lines]
      | none => st.current_hunks
    match matchHunkHeader line with
    | some q => ⟨st.file_changes, st.current_file, hs, some q, []⟩
    | none => ⟨st.file_changes, st.current_file, hs, st.current_hunk, st.current_hunk_lines⟩
  else
    if st.current_hunk.isSome ∧
        ((" ".toList).isPrefixOf line ∨ ("+".toList).isPrefixOf line ∨ ("-".toList).isPrefixOf line) then
      { st with current_hunk_lines := st.current_hunk_lines ++ [line] }
    else st

/-- State after a `--- ` header line with no `+++ ` line following. -/
def headerState (line : Line) (st : PState) : PState :=
  ⟨flushFile st, some (pathOf line, pathOf line), [], none, []⟩

/-- State after a `--- ` header line whose successor is a `+++ ` line. -/
def headerState2 (line next : Line) (st : PState) : PState :=
  ⟨flushFile st, some (pathOf line, pathOf next), [], none, []⟩

/-- The `while i < len(lines)` loop of `src/main_enhanced.py`'s
`parse_diff`. -/
def parseLoop : List Line → PState → List FileChange
  | [], st => flushFile st
  | [line], st =>
    if ("--- ".toList).isPrefixOf line then parseLoop [] (headerState line st)
    else parseLoop [] (stepOther line st)
  | line :: next :: rest2, st =>
    if ("--- ".toList).isPrefixOf line then
      if ("+++ ".toList).isPrefixOf next then parseLoop rest2 (headerState2 line next st)
      else parseLoop (next :: rest2) (headerState line st)
    else parseLoop (next :: rest2) (stepOther line st)

/-- `src/main_enhanced.py` `parse_diff`. -/
def parse_diff (t : Line) : List FileChange :=
  if pyStrip t = [] then []
  else parseLoop (splitOnChar '\n' (pyStrip t)) initPState

end Enh

/-! ### Python list subscripts with negative-index semantics

`apply_hunk_to_lines` manipulates `result_lines` with raw Python indices that
can be negative (`start_line = old_start - 1` is `-1` when `old_start = 0`),
so subscripting, `pop` and `insert` are modelled with Python's semantics:
a negative index counts from the end, subscript/`pop` raise `IndexError`
outside `[-len, len)`, and `insert` clamps. -/

/-- Resolve a Python index to an actual position, `none` on `IndexError`. -/
def pyIdx (len : Nat) (i : Int) : Option Nat :=
  if i < 0 then
    if (len : Int) + i < 0 then none else some ((len : Int) + i).toNat
  else if i < (len : Int) then some i.toNat else none

/-- Python `l[i]`, `none` on `IndexError`. -/
def pyGet (l : List α) (i : Int) : Option α :=
  match pyIdx l.length i with
  | some j => l[j]?
  | none => none

/-- Python `l.pop(i)`'s effect on the list (callers below establish the index
is valid before popping). -/
def pyRemoveAt (l : List α) (i : Int) : List α :=
  match pyIdx l.length i with
  | some j => l.eraseIdx j
  | none => l

/-- Python `l.insert(i, x)`: the position is clamped into `[0, len]`,
negative values counting from the end. -/
def pyInsert (l : List α) (i : Int) (x : α) : List α :=
  let j : Nat := if i < 0 then ((l.length : Int) + i).toNat else min i.toNat l.length
  l.take j ++ x :: l.drop j

namespace Main

/-- Plan phase of `apply_hunk_to_lines`: the `to_delete` pairs
`(current_line, line[1:])` recorded while walking the hunk body.  Context and
delete lines advance the cursor, add lines do not, unmarked lines fall
through every branch. -/
def planDeletes : List Line → Int → List (Int × Line)
  | [], _ => []
  | l :: rest, cur =>
    if (" ".toList).isPrefixOf l then planDeletes rest (cur + 1)
    else if ("-".toList).isPrefixOf l then (cur, l.drop 1) :: planDeletes rest (cur + 1)
    else if ("+".toList).isPrefixOf l then planDeletes rest cur
    else planDeletes rest cur

/-- The `to_add` pairs of the plan phase (recorded by the source but never
read again: the insert phase re-walks the hunk body instead). -/
def planAdds : List Line → Int → List (Int × Line)
  | [], _ => []
  | l :: rest, cur =>
    if (" ".toList).isPrefixOf l then planAdds rest (cur + 1)
    else if ("-".toList).isPrefixOf l then planAdds rest (cur + 1)
    else if ("+".toList).isPrefixOf l then (cur, l.drop 1) :: planAdds rest cur
    else planAdds rest cur

/-- Delete phase: `for line_idx, content in reversed(to_delete)` — the caller
passes the reversed `to_delete` list.  A mismatch only logs a warning; the
subscript `result_lines[line_idx]` raises when the guarded index is still out
of range from below, which the `Except` models. -/
def delLoop : List (Int × Line) → List Line → Except Unit (List Line)
  | [], res => .ok res
  | (idx, content) :: rest, res =>
    if idx < (res.length : Int) then
      match pyGet res idx with
      | none => .error ()
      | some s =>
        if pyRstrip s = pyRstrip content then delLoop rest (pyRemoveAt res idx)
        else delLoop rest res
    else delLoop rest res

/-- Insert phase: re-walk the hunk body with a fresh cursor and the running
`insert_offset`. -/
def addLoop : List Line → Int → Int → List Line → List Line
  | [], _, _, res => res
  | l :: rest, cur, off, res =>
    if (" ".toList).isPrefixOf l then addLoop rest (cur + 1) off res
    else if ("-".toList).isPrefixOf l then addLoop rest (cur + 1) (off - 1) res
    else if ("+".toList).isPrefixOf l then
      let content := l.drop 1
      let pos := cur + off
      if pos ≤ (res.length : Int) then addLoop rest cur (off + 1) (pyInsert res pos content)
      else addLoop rest cur (off + 1) (res ++ [content])
    else addLoop rest cur off res

/-- `src/main.py` `apply_hunk_to_lines` (`src/main_enhanced.py` carries the
identical function).  `.error` marks the one place the source can raise:
the delete-phase subscript. -/
def apply_hunk_to_lines (lines : List Line) (hunk : DiffHunk) : Except Unit (List Line) :=
  let start_line := hunk.old_start - 1
  match delLoop (planDeletes hunk.lines start_line).reverse lines with
  | .error e => .error e
  | .ok res => .ok (addLoop hunk.lines start_line 0 res)

end Main

/-! ### The validator of `src/main.py` -/

/-- `line.startswith(('+', '-')) and not line.startswith(('+++', '---'))`. -/
def isChangeLine (l : Line) : Bool :=
  (("+".toList).isPrefixOf l || ("-".toList).isPrefixOf l) &&
    !(("+++".toList).isPrefixOf l || ("---".toList).isPrefixOf l)

/-- The fatal message recorded for a malformed hunk header at 0-based
position `i`: `f"第 {i+1} 行: hunk头格式不正确"`. -/
def hunkErrMsg (i : Nat) : Line :=
  "第 ".toList ++ pyRepr (i + 1) ++ " 行: hunk头格式不正确".toList

/-- The hunk-header errors collected by `validate_diff_advanced`'s
`for i, line in enumerate(lines)` loop, in order. -/
def hunkErrors (lines : List Line) : List Line :=
  lines.enum.filterMap fun p =>
    if ("@@".toList).isPrefixOf p.2 ∧ matchHunkHeader p.2 = none then some (hunkErrMsg p.1)
    else none

/-- Path extraction of `validate_diff_advanced`: for each `--- `/`+++ ` line,
`line[4:].strip()`, the part before a tab re-stripped when a tab occurs,
then a single `a/` or `b/` stripped; kept when non-empty and not
`/dev/null`. -/
def extractPath (l : Line) : Option Line :=
  if ("--- ".toList).isPrefixOf l ∨ ("+++ ".toList).isPrefixOf l then
    let p0 := pyStrip (l.drop 4)
    let p1 := if p0.contains '\t' then pyStrip (beforeTab p0) else p0
    let p2 :=
      if ("a/".toList).isPrefixOf p1 then p1.drop 2
      else if ("b/".toList).isPrefixOf p1 then p1.drop 2
      else p1
    if p2 ≠ [] ∧ p2 ≠ "/dev/null".toList then some p2 else none
  else none

def filePaths (lines : List Line) : List Line := lines.filterMap extractPath

/-- The fatal errors of `validate_diff_advanced`, in the order the source
appends them. -/
def vErrors (lines : List Line) : List Line :=
  (if lines.any isChangeLine then [] else ["没有发现实际的代码更改".toList]) ++
    hunkErrors lines ++
    (if filePaths lines = [] then ["没有找到有效的文件路径".toList] else [])

/-- The warnings of `validate_diff_advanced`, in order. -/
def vWarnings (lines : List Line) : List Line :=
  (if lines.any (fun l => ("--- ".toList).isPrefixOf l || ("+++ ".toList).isPrefixOf l) then []
   else ["缺少文件头信息 (--- 和 +++ 行)".toList]) ++
    (if lines.any (fun l => ("@@".toList).isPrefixOf l) then []
     else ["缺少hunk头信息 (@@ 行)".toList])

def joinSemi : List Line → Line
  | [] => []
  | [l] => l
  | l :: ls => l ++ "; ".toList ++ joinSemi ls

/-- `src/main.py` `validate_diff_advanced`, returning
`(is_valid, message, warnings)`. -/
def validate_diff_advanced (t : Line) : Bool × Line × List Line :=
  if pyStrip t = [] then (false, "Diff内容为空".toList, [])
  else
    let lines := splitOnChar '\n' (pyStrip t)
    let errors := vErrors lines
    let warnings := vWarnings lines
    let message :=
      if errors ≠ [] then "错误: ".toList ++ joinSemi errors
      else if warnings ≠ [] then "警告: ".toList ++ joinSemi warnings
      else "格式验证通过".toList
    (errors.isEmpty, message, warnings)

/-! ### Derived definitions used by the claims -/

/-- Count of delete-marked lines in a hunk body. -/
def dCount (body : List Line) : Nat := body.countP (fun l => ("-".toList).isPrefixOf l)

/-- Count of add-marked lines in a hunk body. -/
def aCount (body : List Line) : Nat := body.countP (fun l => ("+".toList).isPrefixOf l)

namespace Main

/-- Hypothesis the delete phase needs about one recorded deletion: the
claimed bound `index < len(lines)` plus the content match, exactly as the
source checks them (the match via the Python subscript). -/
def delHypOk (lines : List Line) (p : Int × Line) : Bool :=
  decide (p.1 < (lines.length : Int)) &&
    (match pyGet lines p.1 with
     | some s => pyRstrip s == pyRstrip p.2
     | none => false)

end Main

/-- The two ways the mirrored loop could fail: an out-of-range subscript
(Python `IndexError`) or fuel exhaustion (non-termination). -/
inductive PErr where
  | fuel : PErr
  | index : PErr
deriving DecidableEq

namespace Main

/-- Indexed, fuelled mirror of the `while i < len(lines)` loop of
`src/main.py`'s `parse_diff`. -/
def parseLoopE (lines : List Line) : Nat → Nat → PState → Except PErr (List FileChange)
  | 0, _, _ => .error .fuel
  | fuel + 1, i, st =>
    if i < lines.length then
      match lines[i]? with
      | none => .error .index
      | some line =>
        if ("--- ".toList).isPrefixOf line then
          if i + 1 < lines.length then
            match lines[i + 1]? with
            | none => .error .index
            | some next =>
              if ("+++ ".toList).isPrefixOf next then
                parseLoopE lines fuel (i + 2) (headerState2 line next st)
              else parseLoopE lines fuel (i + 1) (headerState line st)
          else parseLoopE lines fuel (i + 1) (headerState line st)
        else parseLoopE lines fuel (i + 1) (stepOther line st)
    else .ok (flushFile st)

/-- `src/main.py` `parse_diff` through the indexed, fuelled loop. -/
def parse_diffE (t : Line) : Except PErr (List FileChange) :=
  if pyStrip t = [] then .ok []
  else
    let lines := splitOnChar '\n' (pyStrip t)
    parseLoopE lines (lines.length + 1) 0 initPState

end Main

namespace Enh

/-- Indexed, fuelled mirror of the `while i < len(lines)` loop of
`src/main_enhanced.py`'s `parse_diff`. -/
def parseLoopE (lines : List Line) : Nat → Nat → PState → Except PErr (List FileChange)
  | 0, _, _ => .error .fuel
  | fuel + 1, i, st =>
    if i < lines.length then
      match lines[i]? with
      | none => .error .index
      | some line =>
        if ("--- ".toList).isPrefixOf line then
          if i + 1 < lines.length then
            match lines[i + 1]? with
            | none => .error .index
            | some next =>
              if ("+++ ".toList).isPrefixOf next then
                parseLoopE lines fuel (i + 2) (headerState2 line next st)
              else parseLoopE lines fuel (i + 1) (headerState line st)
          else parseLoopE lines fuel (i + 1) (headerState line st)
        else parseLoopE lines fuel (i + 1) (stepOther line st)
    else .ok (flushFile st)

/-- `src/main_enhanced.py` `parse_diff` through the indexed, fuelled loop. -/
def parse_diffE (t : Line) : Except PErr (List FileChange) :=
  if pyStrip t = [] then .ok []
  else
    let lines := splitOnChar '\n' (pyStrip t)
    parseLoopE lines (lines.length + 1) 0 initPState

end Enh

/-- Inverse of `split('\n')`: join lines with a separator character. -/
def unsplit (c : Char) : List (List Char) → List Char
  | [] => []
  | [l] => l
  | l :: ls => l ++ c :: unsplit c ls

/-- The lines of one file-header/hunk block. -/
def blockLines (p q hdr : Line) (body : List Line) : List Line :=
  ("--- ".toList ++ p) :: ("+++ ".toList ++ q) :: hdr :: body

/-- The diff text made of two file-header/hunk blocks in source order. -/
def renderTwoBlocks (p1 q1 hdr1 : Line) (b1 : List Line)
    (p2 q2 hdr2 : Line) (b2 : List Line) : Line :=
  unsplit '\n' (blockLines p1 q1 hdr1 b1 ++ blockLines p2 q2 hdr2 b2)

/-- Well-formedness of one hunk-body line: it carries a context/add/delete
marker, is not itself a file header or hunk header, and spans one line. -/
def bodyLineOk (l : Line) : Prop :=
  ([' '] <+: l ∨ ['+'] <+: l ∨ ['-'] <+: l) ∧
    ¬ (['-', '-', '-', ' '] <+: l) ∧ ¬ (['@', '@'] <+: l) ∧ '\n' ∉ l

instance (l : Line) : Decidable (bodyLineOk l) := by
  unfold bodyLineOk
  infer_instance

/-! ### Helper lemmas -/


@[simp] lemma toList_space : " ".toList = [' '] := rfl
@[simp] lemma toList_plus1 : "+".toList = ['+'] := rfl
@[simp] lemma toList_minus1 : "-".toList = ['-'] := rfl
@[simp] lemma toList_old4 : "--- ".toList = ['-', '-', '-', ' '] := rfl
@[simp] lemma toList_new4 : "+++ ".toList = ['+', '+', '+', ' '] := rfl
@[simp] lemma toList_atat : "@@".toList = ['@', '@'] := rfl

lemma singleChar_pre_iff {c : Char} {l : Line} : [c] <+: l ↔ ∃ t, l = c :: t := by
  cases l with
  | nil => simp
  | cons a t =>
    simp only [List.cons_prefix_cons, List.nil_prefix, and_true]
    constructor
    · intro h
      exact ⟨t, by rw [h]⟩
    · rintro ⟨t', ht⟩
      injection ht with h1 _
      exact h1.symm

lemma singleChar_pre_excl {c c' : Char} (hne : c' ≠ c) {l : Line}
    (h : [c] <+: l) : ¬ ([c'] <+: l) := by
  obtain ⟨t, rfl⟩ := singleChar_pre_iff.mp h
  intro h'
  obtain ⟨t', ht⟩ := singleChar_pre_iff.mp h'
  injection ht with h1 _
  exact hne h1.symm

lemma pyIdx_eq (len : Nat) (i : Int) (h0 : 0 ≤ i) (h : i < (len : Int)) :
    pyIdx len i = some i.toNat := by
  unfold pyIdx
  rw [if_neg (by omega), if_pos h]

lemma pyGet_eq (l : List α) (i : Int) (h0 : 0 ≤ i) (h : i < (l.length : Int)) :
    pyGet l i = l[i.toNat]? := by
  unfold pyGet
  rw [pyIdx_eq _ _ h0 h]

lemma pyRemoveAt_eq (l : List α) (i : Int) (h0 : 0 ≤ i) (h : i < (l.length : Int)) :
    pyRemoveAt l i = l.eraseIdx i.toNat := by
  unfold pyRemoveAt
  rw [pyIdx_eq _ _ h0 h]

lemma pyInsert_length (l : List α) (i : Int) (x : α) :
    (pyInsert l i x).length = l.length + 1 := by
  unfold pyInsert
  simp only [List.length_append, List.length_cons, List.length_take, List.length_drop]
  split <;> omega

namespace Main

lemma planDeletes_le (body : List Line) :
    ∀ (cur : Int), ∀ p ∈ planDeletes body cur, cur ≤ p.1 := by
  induction body with
  | nil => intro cur p hp; simp [planDeletes] at hp
  | cons l rest ih =>
    intro cur p hp
    simp only [planDeletes] at hp
    split at hp
    · have := ih (cur + 1) p hp; omega
    · split at hp
      · rcases List.mem_cons.mp hp with h | h
        · subst h; simp
        · have := ih (cur + 1) p h; omega
      · split at hp
        · exact ih cur p hp
        · exact ih cur p hp

lemma planDeletes_pairwise (body : List Line) :
    ∀ cur, List.Pairwise (fun a b => a.1 < b.1) (planDeletes body cur) := by
  induction body with
  | nil => intro cur; simp [planDeletes]
  | cons l rest ih =>
    intro cur
    simp only [planDeletes]
    split
    · exact ih (cur + 1)
    · split
      · refine List.Pairwise.cons ?_ (ih (cur + 1))
        intro p hp
        have := planDeletes_le rest (cur + 1) p hp
        simp only
        omega
      · split
        · exact ih cur
        · exact ih cur

lemma planDeletes_length (body : List Line) :
    ∀ cur, (planDeletes body cur).length = dCount body := by
  induction body with
  | nil => intro cur; simp [planDeletes, dCount]
  | cons l rest ih =>
    intro cur
    by_cases h1 : [' '] <+: l
    · have h2 : ¬ (['-'] <+: l) := singleChar_pre_excl (by decide) h1
      simp [planDeletes, dCount, List.countP_cons, h1, h2, ih cur, ih (cur + 1)]
    · by_cases h2 : ['-'] <+: l
      · simp [planDeletes, dCount, List.countP_cons, h1, h2, ih (cur + 1)]
      · by_cases h3 : ['+'] <+: l
        · simp [planDeletes, dCount, List.countP_cons, h1, h2, h3, ih cur]
        · simp [planDeletes, dCount, List.countP_cons, h1, h2, h3, ih cur]

lemma delLoop_ok (dels : List (Int × Line)) :
    ∀ (res : List Line),
      List.Pairwise (fun a b => b.1 < a.1) dels →
      (∀ p ∈ dels, 0 ≤ p.1 ∧ delHypOk res p = true) →
      ∃ out, delLoop dels res = .ok out ∧ out.length + dels.length = res.length := by
  induction dels with
  | nil => intro res _ _; exact ⟨res, rfl, by simp⟩
  | cons hd tl ih =>
    obtain ⟨idx, content⟩ := hd
    intro res hpw hmem
    obtain ⟨h0, hok⟩ := hmem _ (List.mem_cons_self _ _)
    simp only [delHypOk, Bool.and_eq_true, decide_eq_true_eq] at hok
    obtain ⟨hlt, hmatch⟩ := hok
    obtain ⟨hfst, hpw'⟩ := List.pairwise_cons.mp hpw
    have hidx : idx.toNat < res.length := by omega
    have hget : pyGet res idx = some res[idx.toNat] := by
      rw [pyGet_eq _ _ h0 hlt]
      exact List.getElem?_eq_getElem hidx
    rw [hget] at hmatch
    simp only [beq_iff_eq] at hmatch
    have step : delLoop ((idx, content) :: tl) res = delLoop tl (pyRemoveAt res idx) := by
      simp only [delLoop, if_pos hlt, hget, hmatch, if_pos]
    have hlen' : (res.eraseIdx idx.toNat).length = res.length - 1 :=
      List.length_eraseIdx_of_lt hidx
    have hmem' : ∀ p ∈ tl, 0 ≤ p.1 ∧ delHypOk (res.eraseIdx idx.toNat) p = true := by
      intro p hp
      obtain ⟨p0, pok⟩ := hmem p (List.mem_cons_of_mem _ hp)
      refine ⟨p0, ?_⟩
      have plt : p.1 < idx := hfst p hp
      simp only [delHypOk, Bool.and_eq_true, decide_eq_true_eq] at pok ⊢
      obtain ⟨pbound, pmatch⟩ := pok
      have pbound' : p.1 < ((res.eraseIdx idx.toNat).length : Int) := by
        rw [hlen']; omega
      refine ⟨pbound', ?_⟩
      rw [pyGet_eq _ _ p0 pbound', List.getElem?_eraseIdx_of_lt _ _ _ (by omega)]
      rw [pyGet_eq _ _ p0 pbound] at pmatch
      exact pmatch
    obtain ⟨out, hdel, hlen⟩ := ih (res.eraseIdx idx.toNat) hpw' hmem'
    refine ⟨out, ?_, ?_⟩
    · rw [step, pyRemoveAt_eq _ _ h0 hlt, hdel]
    · simp only [List.length_cons]
      omega

lemma addLoop_length (body : List Line) :
    ∀ cur off res, (addLoop body cur off res).length = res.length + aCount body := by
  induction body with
  | nil => intro cur off res; simp [addLoop, aCount]
  | cons l rest ih =>
    intro cur off res
    by_cases h1 : [' '] <+: l
    · have h3 : ¬ (['+'] <+: l) := singleChar_pre_excl (by decide) h1
      simp [addLoop, aCount, List.countP_cons, h1, h3, ih (cur + 1) off res]
    · by_cases h2 : ['-'] <+: l
      · have h3 : ¬ (['+'] <+: l) := singleChar_pre_excl (by decide) h2
        simp [addLoop, aCount, List.countP_cons, h1, h2, h3, ih (cur + 1) (off - 1) res]
      · by_cases h3 : ['+'] <+: l
        · by_cases h4 : cur + off ≤ (res.length : Int)
          · simp only [addLoop, aCount, List.countP_cons]
            simp only [toList_space, toList_minus1, toList_plus1, List.isPrefixOf_iff_prefix]
            rw [if_neg h1, if_neg h2, if_pos h3, if_pos h4, ih]
            simp [aCount, h3, pyInsert_length]
            omega
          · simp only [addLoop, aCount, List.countP_cons]
            simp only [toList_space, toList_minus1, toList_plus1, List.isPrefixOf_iff_prefix]
            rw [if_neg h1, if_neg h2, if_pos h3, if_neg h4, ih]
            simp [aCount, h3]
            omega
        · simp [addLoop, aCount, List.countP_cons, h1, h2, h3, ih cur off res]

lemma planDeletes_ctx (body : List Line) (h : ∀ l ∈ body, [' '] <+: l) :
    ∀ cur, planDeletes body cur = [] := by
  induction body with
  | nil => intro cur; simp [planDeletes]
  | cons l rest ih =>
    intro cur
    have h1 : [' '] <+: l := h l (List.mem_cons_self _ _)
    simp [planDeletes, h1, ih (fun l hl => h l (List.mem_cons_of_mem _ hl)) (cur + 1)]

lemma addLoop_ctx (body : List Line) (h : ∀ l ∈ body, [' '] <+: l) :
    ∀ cur off res, addLoop body cur off res = res := by
  induction body with
  | nil => intro cur off res; simp [addLoop]
  | cons l rest ih =>
    intro cur off res
    have h1 : [' '] <+: l := h l (List.mem_cons_self _ _)
    simp [addLoop, h1, ih (fun l hl => h l (List.mem_cons_of_mem _ hl)) (cur + 1) off res]

lemma planDeletes_allPlus (xs : List Line) :
    ∀ cur, planDeletes (xs.map (fun s => '+' :: s)) cur = [] := by
  induction xs with
  | nil => intro cur; simp [planDeletes]
  | cons s rest ih =>
    intro cur
    have h3 : ['+'] <+: ('+' :: s) := singleChar_pre_iff.mpr ⟨s, rfl⟩
    have h1 : ¬ ([' '] <+: ('+' :: s)) := singleChar_pre_excl (by decide) h3
    have h2 : ¬ (['-'] <+: ('+' :: s)) := singleChar_pre_excl (by decide) h3
    simp [planDeletes, h1, h2, h3, ih cur]

lemma pyInsert_split (ys : List α) (x s : α) :
    pyInsert (ys ++ [x]) ((ys.length : Int)) s = (ys ++ [s]) ++ [x] := by
  unfold pyInsert
  rw [if_neg (by omega)]
  have hj : min ((ys.length : Int)).toNat (ys ++ [x]).length = ys.length := by
    simp [List.length_append]
  rw [hj]
  show List.take ys.length (ys ++ [x]) ++ s :: List.drop ys.length (ys ++ [x]) = ys ++ [s] ++ [x]
  rw [List.take_left, List.drop_left]
  simp

lemma addLoop_allPlus (xs : List Line) :
    ∀ (ys : List Line) (x : Line),
      addLoop (xs.map (fun s => '+' :: s)) (-1) ((ys.length : Int) + 1) (ys ++ [x]) =
        ys ++ xs ++ [x] := by
  induction xs with
  | nil => intro ys x; simp [addLoop]
  | cons s rest ih =>
    intro ys x
    have h3 : ['+'] <+: ('+' :: s) := singleChar_pre_iff.mpr ⟨s, rfl⟩
    have h1 : ¬ ([' '] <+: ('+' :: s)) := singleChar_pre_excl (by decide) h3
    have h2 : ¬ (['-'] <+: ('+' :: s)) := singleChar_pre_excl (by decide) h3
    have hle : (-1 : Int) + ((ys.length : Int) + 1) ≤ ((ys ++ [x]).length : Int) := by
      simp [List.length_append]
    simp only [List.map_cons, addLoop, toList_space, toList_minus1, toList_plus1,
      List.isPrefixOf_iff_prefix]
    rw [if_neg h1, if_neg h2, if_pos h3, if_pos hle]
    have hpos : (-1 : Int) + ((ys.length : Int) + 1) = (ys.length : Int) := by ring
    rw [hpos]
    have hdrop : List.drop 1 ('+' :: s) = s := by simp
    rw [hdrop, pyInsert_split]
    have hoff : (ys.length : Int) + 1 + 1 = (((ys ++ [s]).length : Nat) : Int) + 1 := by
      have hys : (ys ++ [s]).length = ys.length + 1 := by simp
      rw [hys]
      push_cast
      ring
    rw [hoff]
    have hfin := ih (ys ++ [s]) x
    rw [hfin]
    simp

end Main

/-! ## Claims C2, C3, C7, C10 about `apply_hunk_to_lines` -/

/-- **C2** (amended): for every line list and every `DiffHunk` with `d`
delete-marked and `a` add-marked lines, if every deletion recorded in the
plan phase has a **non-negative** index that is `< len(lines)` and whose
line in the input matches `expected_text` up to trailing whitespace, then
`apply_hunk_to_lines` returns a list of length `len(lines) - d + a`.
(The claim as stated, without non-negativity, fails:
see the counterexample `c2_counterexample`.) -/
theorem c2_hunk_length (lines : List Line) (hunk : DiffHunk)
    (h : (Main.planDeletes hunk.lines (hunk.old_start - 1)).all
      (fun p => decide (0 ≤ p.1) && Main.delHypOk lines p) = true) :
    (Main.apply_hunk_to_lines lines hunk).toOption.map
        (fun res => res.length + dCount hunk.lines) =
      some (lines.length + aCount hunk.lines) := by
  have hmem : ∀ p ∈ (Main.planDeletes hunk.lines (hunk.old_start - 1)).reverse,
      0 ≤ p.1 ∧ Main.delHypOk lines p = true := by
    intro p hp
    rw [List.mem_reverse] at hp
    have hall := (List.all_eq_true.mp h) p hp
    simp only [Bool.and_eq_true, decide_eq_true_eq] at hall
    exact hall
  have hpw : List.Pairwise (fun a b => b.1 < a.1)
      (Main.planDeletes hunk.lines (hunk.old_start - 1)).reverse :=
    List.pairwise_reverse.mpr (Main.planDeletes_pairwise hunk.lines _)
  obtain ⟨out, hdel, hlen⟩ :=
    Main.delLoop_ok ((Main.planDeletes hunk.lines (hunk.old_start - 1)).reverse) lines hpw hmem
  have hd : ((Main.planDeletes hunk.lines (hunk.old_start - 1)).reverse).length =
      dCount hunk.lines := by
    rw [List.length_reverse, Main.planDeletes_length]
  rw [hd] at hlen
  have happ : Main.apply_hunk_to_lines lines hunk =
      .ok (Main.addLoop hunk.lines (hunk.old_start - 1) 0 out) := by
    simp only [Main.apply_hunk_to_lines, hdel]
  rw [happ]
  show some ((Main.addLoop hunk.lines (hunk.old_start - 1) 0 out).length + dCount hunk.lines) =
    some (lines.length + aCount hunk.lines)
  rw [Main.addLoop_length]
  congr 1
  omega

/-- Witness for `c2_hunk_length` at scenario A's hunk. -/
theorem c2_hunk_length_witness :
    (Main.apply_hunk_to_lines ["a".toList, "b".toList, "c".toList]
        ⟨1, 3, 1, 3, [" a".toList, "-b".toList, "+B".toList, " c".toList]⟩).toOption.map
        (fun res => res.length + dCount [" a".toList, "-b".toList, "+B".toList, " c".toList]) =
      some (3 + aCount [" a".toList, "-b".toList, "+B".toList, " c".toList]) :=
  c2_hunk_length ["a".toList, "b".toList, "c".toList]
    ⟨1, 3, 1, 3, [" a".toList, "-b".toList, "+B".toList, " c".toList]⟩ (by decide)

/-- **C2** counterexample to the claim as stated: for `lines = ["a"]` and
the hunk `old_start = 0`, body `["-a", "-a"]`, every recorded deletion
`(-1, "a")`, `(0, "a")` satisfies `index < len(lines)` and the Python
subscript `lines[index]` matches the expected text (index `-1` counts from
the end), yet `apply_hunk_to_lines` raises `IndexError` instead of
returning a list of length `1 - 2 + 0`. -/
theorem c2_counterexample :
    (Main.planDeletes ["-a".toList, "-a".toList] ((0 : Int) - 1)).all
        (Main.delHypOk ["a".toList]) = true ∧
      Main.apply_hunk_to_lines ["a".toList] ⟨0, 2, 1, 0, ["-a".toList, "-a".toList]⟩ =
        .error () :=
  ⟨by decide, by rfl⟩

/-- **C3**: scenario A — applying the hunk `@@ -1,3 +1,3 @@` with body
`[" a", "-b", "+B", " c"]` to `["a", "b", "c"]` yields `["a", "B", "c"]`. -/
theorem c3_scenario_a :
    Main.apply_hunk_to_lines ["a".toList, "b".toList, "c".toList]
        ⟨1, 3, 1, 3, [" a".toList, "-b".toList, "+B".toList, " c".toList]⟩ =
      .ok ["a".toList, "B".toList, "c".toList] := by
  rfl

/-- **C7**: a hunk all of whose body lines are context-marked (start with a
space) leaves the file content unchanged. -/
theorem c7_context_identity (lines : List Line) (hunk : DiffHunk)
    (h : ∀ l ∈ hunk.lines, [' '] <+: l) :
    Main.apply_hunk_to_lines lines hunk = .ok lines := by
  simp only [Main.apply_hunk_to_lines, Main.planDeletes_ctx _ h, List.reverse_nil,
    Main.delLoop, Main.addLoop_ctx _ h]

/-- Witness for `c7_context_identity`. -/
theorem c7_witness :
    Main.apply_hunk_to_lines ["a".toList, "b".toList]
        ⟨1, 2, 1, 2, [" a".toList, " b".toList]⟩ = .ok ["a".toList, "b".toList] :=
  c7_context_identity _ _ (by decide)

/-- **C10**: a hunk with `old_start = 0` whose body is all add lines,
applied to the empty file, puts the *first* added line last: Python's
`insert(-1, ...)` on the growing buffer reorders the insertions. -/
theorem c10_new_file_reorder (hunk : DiffHunk) (x : Line) (xs : List Line)
    (h0 : hunk.old_start = 0)
    (hl : hunk.lines = ('+' :: x) :: xs.map (fun s => '+' :: s)) :
    Main.apply_hunk_to_lines [] hunk = .ok (xs ++ [x]) := by
  have hplan : Main.planDeletes (('+' :: x) :: xs.map (fun s => '+' :: s)) ((0 : Int) - 1) = [] := by
    have hmap : (('+' :: x) :: xs.map (fun s => '+' :: s)) =
        (x :: xs).map (fun s => '+' :: s) := by simp
    rw [hmap, Main.planDeletes_allPlus]
  simp only [Main.apply_hunk_to_lines, h0, hl, hplan, List.reverse_nil, Main.delLoop]
  have h3 : ['+'] <+: ('+' :: x) := singleChar_pre_iff.mpr ⟨x, rfl⟩
  have h1 : ¬ ([' '] <+: ('+' :: x)) := singleChar_pre_excl (by decide) h3
  have h2 : ¬ (['-'] <+: ('+' :: x)) := singleChar_pre_excl (by decide) h3
  have hle : (0 : Int) - 1 + 0 ≤ ((([] : List Line)).length : Int) := by simp
  simp only [Main.addLoop, toList_space, toList_minus1, toList_plus1,
    List.isPrefixOf_iff_prefix]
  rw [if_neg h1, if_neg h2, if_pos h3, if_pos hle]
  have hins : pyInsert ([] : List Line) ((0 : Int) - 1 + 0) (List.drop 1 ('+' :: x)) = [x] := by
    unfold pyInsert
    rw [if_pos (by omega)]
    simp
  rw [hins]
  have h01 : (0 : Int) - 1 = -1 := by ring
  have h02 : (0 : Int) + 1 = ((([] : List Line).length : Int)) + 1 := by simp
  rw [h01, h02]
  have := Main.addLoop_allPlus xs ([] : List Line) x
  simp only [List.nil_append] at this
  rw [this]

/-- Witness for `c10_new_file_reorder`: body `["+x", "+y"]` on the empty
file yields `["y", "x"]`. -/
theorem c10_witness :
    Main.apply_hunk_to_lines [] ⟨0, 0, 1, 2, ["+x".toList, "+y".toList]⟩ =
      .ok ["y".toList, "x".toList] :=
  c10_new_file_reorder _ "x".toList ["y".toList] rfl rfl

/-! ## Claims C5 and C6 about `validate_diff_advanced` -/

lemma hunkErrors_eq_nil_iff (L : List Line) :
    hunkErrors L = [] ↔
      ¬ ∃ l ∈ L, (['@', '@'] <+: l) ∧ matchHunkHeader l = none := by
  unfold hunkErrors
  rw [List.filterMap_eq_nil_iff]
  constructor
  · intro h
    rintro ⟨l, hl, hc1, hc2⟩
    obtain ⟨i, hi⟩ := List.mem_iff_getElem?.mp hl
    have henum : (i, l) ∈ L.enum := List.mk_mem_enum_iff_getElem?.mpr hi
    have := h (i, l) henum
    simp [hc1, hc2] at this
  · intro h p hp
    have hmem : p.2 ∈ L := by
      have := List.mk_mem_enum_iff_getElem?.mp (by simpa using hp)
      exact List.getElem?_mem this
    by_cases hc : (['@', '@'] <+: p.2) ∧ matchHunkHeader p.2 = none
    · exact absurd ⟨p.2, hmem, hc⟩ h
    · simp only [toList_atat, List.isPrefixOf_iff_prefix, ite_eq_right_iff]
      intro hc'
      exact absurd hc' hc

/-- **C5**: `validate_diff_advanced` reports `valid = False` exactly when a
fatal condition holds: empty (stripped) content, no add/delete change line,
a malformed `@@` header line, or no resolvable non-null-device file path.
The two warning conditions never affect `valid`. -/
theorem c5_valid_iff_fatal (t : Line) :
    (validate_diff_advanced t).1 = false ↔
      (pyStrip t = [] ∨
        (splitOnChar '\n' (pyStrip t)).any isChangeLine = false ∨
        (∃ l ∈ splitOnChar '\n' (pyStrip t),
          ("@@".toList).isPrefixOf l = true ∧ matchHunkHeader l = none) ∨
        filePaths (splitOnChar '\n' (pyStrip t)) = []) := by
  by_cases hs : pyStrip t = []
  · simp [validate_diff_advanced, hs]
  · simp only [validate_diff_advanced, if_neg hs]
    by_cases h2 : hunkErrors (splitOnChar '\n' (pyStrip t)) = []
    · have hnex : ¬ ∃ l ∈ splitOnChar '\n' (pyStrip t),
          (['@', '@'] <+: l) ∧ matchHunkHeader l = none := (hunkErrors_eq_nil_iff _).mp h2
      by_cases h1 : (splitOnChar '\n' (pyStrip t)).any isChangeLine = true
      · by_cases h3 : filePaths (splitOnChar '\n' (pyStrip t)) = [] <;>
          simp [vErrors, List.isEmpty_iff, List.append_eq_nil, hs, h1, h2, h3, hnex]
      · by_cases h3 : filePaths (splitOnChar '\n' (pyStrip t)) = [] <;>
          simp [vErrors, List.isEmpty_iff, List.append_eq_nil, hs, h1, h2, h3, hnex,
            Bool.not_eq_true]
    · have hex : ∃ l ∈ splitOnChar '\n' (pyStrip t),
          (['@', '@'] <+: l) ∧ matchHunkHeader l = none := by
        by_contra hc
        exact h2 ((hunkErrors_eq_nil_iff _).mpr hc)
      by_cases h1 : (splitOnChar '\n' (pyStrip t)).any isChangeLine = true
      · by_cases h3 : filePaths (splitOnChar '\n' (pyStrip t)) = [] <;>
          simp [vErrors, List.isEmpty_iff, List.append_eq_nil, hs, h1, h2, h3, hex]
      · by_cases h3 : filePaths (splitOnChar '\n' (pyStrip t)) = [] <;>
          simp [vErrors, List.isEmpty_iff, List.append_eq_nil, hs, h1, h2, h3, hex,
            Bool.not_eq_true]

/-- **C6**: every line of the (stripped) input that begins with `@@` but
does not match the strict hunk-header grammar contributes the fatal error
`第 {i+1} 行: hunk头格式不正确` containing its 1-based line number, and the
result is invalid. -/
theorem c6_hunk_error_line_number (t : Line) (i : Nat)
    (hi : i < (splitOnChar '\n' (pyStrip t)).length)
    (hpre : ("@@".toList).isPrefixOf ((splitOnChar '\n' (pyStrip t))[i]) = true)
    (hbad : matchHunkHeader ((splitOnChar '\n' (pyStrip t))[i]) = none) :
    hunkErrMsg i ∈ vErrors (splitOnChar '\n' (pyStrip t)) ∧
      (validate_diff_advanced t).1 = false := by
  have hmemE : hunkErrMsg i ∈ hunkErrors (splitOnChar '\n' (pyStrip t)) := by
    unfold hunkErrors
    refine List.mem_filterMap.mpr ⟨(i, (splitOnChar '\n' (pyStrip t))[i]), ?_, ?_⟩
    · exact List.mk_mem_enum_iff_getElem?.mpr (List.getElem?_eq_getElem hi)
    · have hpre' : ['@', '@'] <+: (splitOnChar '\n' (pyStrip t))[i] := by simpa using hpre
      simp [hpre', hbad]
  have hmemV : hunkErrMsg i ∈ vErrors (splitOnChar '\n' (pyStrip t)) := by
    unfold vErrors
    exact List.mem_append.mpr (Or.inl (List.mem_append.mpr (Or.inr hmemE)))
  refine ⟨hmemV, ?_⟩
  have hs : pyStrip t ≠ [] := by
    intro hnil
    have hmem : (splitOnChar '\n' (pyStrip t))[i] ∈ splitOnChar '\n' (pyStrip t) :=
      List.getElem_mem hi
    generalize hv : (splitOnChar '\n' (pyStrip t))[i] = v at hmem hpre
    rw [hnil] at hmem
    have hone : splitOnChar '\n' ([] : Line) = [[]] := rfl
    rw [hone] at hmem
    simp only [List.mem_singleton] at hmem
    rw [hmem] at hpre
    simp [List.isPrefixOf] at hpre
  simp only [validate_diff_advanced, if_neg hs]
  simp [List.isEmpty_iff]
  exact List.ne_nil_of_mem hmemV

/-- Witness for `c6_hunk_error_line_number` on the input `"@@ bad"`. -/
theorem c6_witness :
    hunkErrMsg 0 ∈ vErrors (splitOnChar '\n' (pyStrip "@@ bad".toList)) ∧
      (validate_diff_advanced "@@ bad".toList).1 = false :=
  c6_hunk_error_line_number "@@ bad".toList 0 (by decide) (by decide) (by decide)

/-! ## Stepping lemmas for the two parser loops -/

namespace Main

lemma parseLoop_cons (line : Line) (rest : List Line) (st : PState) :
    parseLoop (line :: rest) st =
      if ("--- ".toList).isPrefixOf line then
        match rest with
        | next :: rest2 =>
          if ("+++ ".toList).isPrefixOf next then parseLoop rest2 (headerState2 line next st)
          else parseLoop rest (headerState line st)
        | [] => parseLoop [] (headerState line st)
      else parseLoop rest (stepOther line st) := by
  cases rest <;> rfl

lemma parseLoop_not_header (line : Line) (rest : List Line) (st : PState)
    (hh : ¬ ("--- ".toList).isPrefixOf line = true) :
    parseLoop (line :: rest) st = parseLoop rest (stepOther line st) := by
  rw [parseLoop_cons, if_neg hh]

end Main

namespace Enh

lemma parseLoop_cons_enh (line : Line) (rest : List Line) (st : PState) :
    parseLoop (line :: rest) st =
      if ("--- ".toList).isPrefixOf line then
        match rest with
        | next :: rest2 =>
          if ("+++ ".toList).isPrefixOf next then parseLoop rest2 (headerState2 line next st)
          else parseLoop rest (headerState line st)
        | [] => parseLoop [] (headerState line st)
      else parseLoop rest (stepOther line st) := by
  cases rest <;> rfl

lemma parseLoop_not_header_enh (line : Line) (rest : List Line) (st : PState)
    (hh : ¬ ("--- ".toList).isPrefixOf line = true) :
    parseLoop (line :: rest) st = parseLoop rest (stepOther line st) := by
  rw [parseLoop_cons_enh, if_neg hh]

end Enh

/-! ## Claim C8: the two parsers are not extensionally equal -/

/-- **C8**: `src/main.py`'s `parse_diff` and `src/main_enhanced.py`'s
`parse_diff` differ: on a diff whose last (only) file has a single hunk,
the former returns `[]` (its flush needs a non-empty `current_hunks`)
while the latter returns that file. -/
theorem c8_parsers_differ :
    Main.parse_diff ("--- a/f\n+++ b/f\n@@ -1 +1 @@\n-x\n+y".toList) ≠
      Enh.parse_diff ("--- a/f\n+++ b/f\n@@ -1 +1 @@\n-x\n+y".toList) := by
  decide

/-! ## Claim C9: the parser never sets the new-file/deleted-file flags -/

namespace Main

lemma flushFile_flags (st : PState)
    (h : ∀ fc ∈ st.file_changes, fc.is_new_file = false ∧ fc.is_deleted_file = false) :
    ∀ fc ∈ flushFile st, fc.is_new_file = false ∧ fc.is_deleted_file = false := by
  intro fc hfc
  unfold flushFile at hfc
  split at hfc
  · exact h fc hfc
  · split at hfc
    · exact h fc hfc
    · split at hfc <;>
      · rcases List.mem_append.mp hfc with h' | h'
        · exact h fc h'
        · simp only [List.mem_singleton] at h'
          subst h'
          exact ⟨rfl, rfl⟩

lemma stepOther_fcs (line : Line) (st : PState) :
    (stepOther line st).file_changes = st.file_changes := by
  unfold stepOther
  split
  · split <;> (split <;> rfl)
  · split
    · split <;> rfl
    · rfl

lemma parseLoop_flags : ∀ (lines : List Line) (st : PState),
    (∀ fc ∈ st.file_changes, fc.is_new_file = false ∧ fc.is_deleted_file = false) →
    ∀ fc ∈ parseLoop lines st, fc.is_new_file = false ∧ fc.is_deleted_file = false := by
  intro lines st
  induction lines, st using parseLoop.induct with
  | case1 st =>
    intro h fc hfc
    exact flushFile_flags st h fc hfc
  | case2 line st hh ih =>
    intro h fc hfc
    rw [parseLoop, if_pos hh] at hfc
    exact ih (flushFile_flags st h) fc hfc
  | case3 line st hh ih =>
    intro h fc hfc
    rw [parseLoop, if_neg hh] at hfc
    refine ih ?_ fc hfc
    rw [stepOther_fcs]
    exact h
  | case4 line next rest2 st hh hp ih =>
    intro h fc hfc
    rw [parseLoop, if_pos hh, if_pos hp] at hfc
    exact ih (flushFile_flags st h) fc hfc
  | case5 line next rest2 st hh hp ih =>
    intro h fc hfc
    rw [parseLoop, if_pos hh, if_neg hp] at hfc
    exact ih (flushFile_flags st h) fc hfc
  | case6 line next rest2 st hh ih =>
    intro h fc hfc
    rw [parseLoop, if_neg hh] at hfc
    refine ih ?_ fc hfc
    rw [stepOther_fcs]
    exact h

end Main

/-- **C9**: every `FileChange` produced by `src/main.py`'s `parse_diff` has
`is_new_file = False` and `is_deleted_file = False`: the parser never sets
either flag, so new-file and deleted-file diffs are not distinguished. -/
theorem c9_flags_never_set (t : Line) (fc : FileChange) (h : fc ∈ Main.parse_diff t) :
    fc.is_new_file = false ∧ fc.is_deleted_file = false := by
  unfold Main.parse_diff at h
  split at h
  · simp at h
  · exact Main.parseLoop_flags _ initPState (by simp [initPState]) fc h

/-- Witness for `c9_flags_never_set` on a concrete two-hunk diff. -/
theorem c9_witness :
    (FileChange.mk "f".toList "f".toList
        [⟨1, 1, 1, 1, ["-x".toList, "+y".toList]⟩, ⟨5, 1, 5, 1, ["-q".toList, "+r".toList]⟩]
        false false).is_new_file = false ∧
      (FileChange.mk "f".toList "f".toList
        [⟨1, 1, 1, 1, ["-x".toList, "+y".toList]⟩, ⟨5, 1, 5, 1, ["-q".toList, "+r".toList]⟩]
        false false).is_deleted_file = false :=
  c9_flags_never_set
    ("--- a/f\n+++ b/f\n@@ -1 +1 @@\n-x\n+y\n@@ -5 +5 @@\n-q\n+r".toList)
    _ (by decide)

/-! ## Claim C4: `parse_diff` terminates and never raises

The `while` loop of each source walks an index `i` over `lines` and
subscripts `lines[i]` (and, in the `--- ` branch, `lines[i + 1]`).
`parseLoopE` mirrors that indexed loop literally: the subscripts go through
`getElem?` and produce `.error .index` when out of range, and a fuel
counter produces `.error .fuel` when the loop would fail to terminate
within `len(lines) + 1` iterations.  The equivalence theorems show the
mirrored loop always returns `.ok` with the parsed result. -/

namespace Main

lemma parseLoopE_eq (lines : List Line) :
    ∀ (fuel i : Nat) (st : PState), lines.length - i < fuel →
      parseLoopE lines fuel i st = .ok (parseLoop (lines.drop i) st) := by
  intro fuel
  induction fuel with
  | zero => intro i st h; omega
  | succ fuel ih =>
    intro i st h
    by_cases hi : i < lines.length
    · have hget : lines[i]? = some lines[i] := List.getElem?_eq_getElem hi
      have hdrop : lines.drop i = lines[i] :: lines.drop (i + 1) := List.drop_eq_getElem_cons hi
      simp only [parseLoopE, if_pos hi, hget]
      by_cases hh : ("--- ".toList).isPrefixOf lines[i] = true
      · rw [if_pos hh]
        by_cases hi1 : i + 1 < lines.length
        · have hget1 : lines[i + 1]? = some lines[i + 1] := List.getElem?_eq_getElem hi1
          have hdrop1 : lines.drop (i + 1) = lines[i + 1] :: lines.drop (i + 2) :=
            List.drop_eq_getElem_cons hi1
          rw [if_pos hi1]
          simp only [hget1]
          by_cases hp : ("+++ ".toList).isPrefixOf lines[i + 1] = true
          · rw [if_pos hp, ih (i + 2) _ (by omega), hdrop, hdrop1]
            simp only [parseLoop]
            rw [if_pos hh, if_pos hp]
          · rw [if_neg hp, ih (i + 1) _ (by omega), hdrop, hdrop1]
            simp only [parseLoop]
            rw [if_pos hh, if_neg hp]
        · have hnil : lines.drop (i + 1) = [] := List.drop_eq_nil_of_le (by omega)
          rw [if_neg hi1, ih (i + 1) _ (by omega), hdrop, hnil]
          simp only [parseLoop]
          rw [if_pos hh]
      · rw [if_neg hh, ih (i + 1) _ (by omega), hdrop,
          parseLoop_not_header _ _ _ hh]
    · simp only [parseLoopE, if_neg hi]
      have hnil : lines.drop i = [] := List.drop_eq_nil_of_le (by omega)
      rw [hnil]
      rfl

end Main

namespace Enh

lemma parseLoopE_eq_enh (lines : List Line) :
    ∀ (fuel i : Nat) (st : PState), lines.length - i < fuel →
      parseLoopE lines fuel i st = .ok (parseLoop (lines.drop i) st) := by
  intro fuel
  induction fuel with
  | zero => intro i st h; omega
  | succ fuel ih =>
    intro i st h
    by_cases hi : i < lines.length
    · have hget : lines[i]? = some lines[i] := List.getElem?_eq_getElem hi
      have hdrop : lines.drop i = lines[i] :: lines.drop (i + 1) := List.drop_eq_getElem_cons hi
      simp only [parseLoopE, if_pos hi, hget]
      by_cases hh : ("--- ".toList).isPrefixOf lines[i] = true
      · rw [if_pos hh]
        by_cases hi1 : i + 1 < lines.length
        · have hget1 : lines[i + 1]? = some lines[i + 1] := List.getElem?_eq_getElem hi1
          have hdrop1 : lines.drop (i + 1) = lines[i + 1] :: lines.drop (i + 2) :=
            List.drop_eq_getElem_cons hi1
          rw [if_pos hi1]
          simp only [hget1]
          by_cases hp : ("+++ ".toList).isPrefixOf lines[i + 1] = true
          · rw [if_pos hp, ih (i + 2) _ (by omega), hdrop, hdrop1]
            simp only [parseLoop]
            rw [if_pos hh, if_pos hp]
          · rw [if_neg hp, ih (i + 1) _ (by omega), hdrop, hdrop1]
            simp only [parseLoop]
            rw [if_pos hh, if_neg hp]
        · have hnil : lines.drop (i + 1) = [] := List.drop_eq_nil_of_le (by omega)
          rw [if_neg hi1, ih (i + 1) _ (by omega), hdrop, hnil]
          simp only [parseLoop]
          rw [if_pos hh]
      · rw [if_neg hh, ih (i + 1) _ (by omega), hdrop,
          parseLoop_not_header_enh _ _ _ hh]
    · simp only [parseLoopE, if_neg hi]
      have hnil : lines.drop i = [] := List.drop_eq_nil_of_le (by omega)
      rw [hnil]
      rfl

end Enh

/-! ## Claim C1: a diff of two file-header/hunk blocks

A "file-header/hunk block" is rendered from its constituents: a `--- ` line,
a `+++ ` line, a hunk-header line matching the strict grammar, and a
non-empty body of marker-led lines.  `renderTwoBlocks` joins two such blocks
with newlines. -/

lemma splitOnChar_ne_nil (c : Char) : ∀ l : List Char, splitOnChar c l ≠ [] := by
  intro l
  induction l with
  | nil => simp [splitOnChar]
  | cons a rest ih =>
    simp only [splitOnChar]
    split
    · simp
    · split <;> simp

lemma splitOnChar_not_mem {c : Char} : ∀ {l : List Char}, c ∉ l → splitOnChar c l = [l] := by
  intro l
  induction l with
  | nil => intro _; rfl
  | cons a rest ih =>
    intro h
    have ha : ¬ (a = c) := fun hc => h (by simp [hc])
    have hr : c ∉ rest := fun hc => h (List.mem_cons_of_mem _ hc)
    simp only [splitOnChar, ih hr]
    rw [if_neg ha]

lemma splitOnChar_sep {c : Char} : ∀ (l r : List Char), c ∉ l →
    splitOnChar c (l ++ c :: r) = l :: splitOnChar c r := by
  intro l
  induction l with
  | nil =>
    intro r _
    rcases hs : splitOnChar c r with _ | ⟨g, gs⟩
    · exact absurd hs (splitOnChar_ne_nil c r)
    · simp [splitOnChar, hs]
  | cons a l' ih =>
    intro r h
    have ha : ¬ (a = c) := fun hc => h (by simp [hc])
    have hl' : c ∉ l' := fun hc => h (List.mem_cons_of_mem _ hc)
    simp only [List.cons_append, splitOnChar, List.append_eq, ih r hl']
    rw [if_neg ha]

lemma unsplit_split {c : Char} : ∀ (ls : List (List Char)), ls ≠ [] →
    (∀ l ∈ ls, c ∉ l) → splitOnChar c (unsplit c ls) = ls := by
  intro ls
  induction ls with
  | nil => intro h; exact absurd rfl h
  | cons l ls' ih =>
    intro _ h
    cases ls' with
    | nil => exact splitOnChar_not_mem (h l (List.mem_cons_self _ _))
    | cons l2 ls2 =>
      show splitOnChar c (l ++ c :: unsplit c (l2 :: ls2)) = _
      rw [splitOnChar_sep _ _ (h l (List.mem_cons_self _ _)),
        ih (by simp) (fun x hx => h x (List.mem_cons_of_mem _ hx))]

lemma dash4_pre (p : Line) : (("--- ".toList).isPrefixOf ("--- ".toList ++ p)) = true :=
  List.isPrefixOf_iff_prefix.mpr ⟨p, rfl⟩

lemma plus4_pre (q : Line) : (("+++ ".toList).isPrefixOf ("+++ ".toList ++ q)) = true :=
  List.isPrefixOf_iff_prefix.mpr ⟨q, rfl⟩

lemma not_dash_pre_of_plus (q : Line) :
    ¬ (("--- ".toList).isPrefixOf ("+++ ".toList ++ q) = true) := by
  intro habs
  rw [List.isPrefixOf_iff_prefix] at habs
  rw [show ("+++ ".toList ++ q) = '+' :: ('+' :: ('+' :: (' ' :: q))) from rfl] at habs
  rw [show ("--- ".toList) = '-' :: ('-' :: ('-' :: [' '])) from rfl] at habs
  rw [List.cons_prefix_cons] at habs
  exact absurd habs.1 (by decide)

lemma not_dash_pre_of_at (r : Line) :
    ¬ (("--- ".toList).isPrefixOf ("@@ -".toList ++ r) = true) := by
  intro habs
  rw [List.isPrefixOf_iff_prefix] at habs
  rw [show ("@@ -".toList ++ r) = '@' :: ('@' :: (' ' :: ('-' :: r))) from rfl] at habs
  rw [show ("--- ".toList) = '-' :: ('-' :: ('-' :: [' '])) from rfl] at habs
  rw [List.cons_prefix_cons] at habs
  exact absurd habs.1 (by decide)

lemma at_pre_of_at (r : Line) : (("@@".toList).isPrefixOf ("@@ -".toList ++ r)) = true := by
  rw [List.isPrefixOf_iff_prefix]
  exact ⟨' ' :: ('-' :: r), rfl⟩

lemma matchHunkHeader_shape {l : Line} {q : Nat × Option Nat × Nat × Option Nat}
    (h : matchHunkHeader l = some q) : ∃ r, l = "@@ -".toList ++ r := by
  rcases hdl : dropLit "@@ -".toList l with _ | r1
  · unfold matchHunkHeader at h
    rw [hdl] at h
    simp at h
  · unfold dropLit at hdl
    split at hdl
    · next hp =>
      obtain ⟨t, ht⟩ := List.isPrefixOf_iff_prefix.mp hp
      exact ⟨t, ht.symm⟩
    · simp at hdl

namespace Enh

lemma parseLoop_cons2_header (line next : Line) (rest2 : List Line) (st : PState)
    (hh : ("--- ".toList).isPrefixOf line = true)
    (hp : ("+++ ".toList).isPrefixOf next = true) :
    parseLoop (line :: next :: rest2) st = parseLoop rest2 (headerState2 line next st) := by
  simp only [parseLoop]
  rw [if_pos hh, if_pos hp]

lemma stepOther_body (l : Line) (st : PState) (hsome : st.current_hunk.isSome = true)
    (hb : bodyLineOk l) :
    stepOther l st = { st with current_hunk_lines := st.current_hunk_lines ++ [l] } := by
  obtain ⟨hmark, _, hat, _⟩ := hb
  have hat' : ¬ (("@@".toList).isPrefixOf l = true) := by simpa using hat
  have hmark' : ((" ".toList).isPrefixOf l = true ∨ ("+".toList).isPrefixOf l = true ∨
      ("-".toList).isPrefixOf l = true) := by simpa using hmark
  unfold stepOther
  rw [if_neg hat', if_pos ⟨hsome, hmark'⟩]

lemma stepOther_hunkHeader (l : Line) (fcs : List FileChange) (cf : Option (Line × Line))
    (hks : List DiffHunk) (chl : List Line) (q : Nat × Option Nat × Nat × Option Nat)
    (hm : matchHunkHeader l = some q) :
    stepOther l ⟨fcs, cf, hks, none, chl⟩ = ⟨fcs, cf, hks, some q, []⟩ := by
  obtain ⟨r, rfl⟩ := matchHunkHeader_shape hm
  unfold stepOther
  rw [if_pos (at_pre_of_at r), hm]

lemma body_seg : ∀ (bs rest : List Line) (st : PState),
    st.current_hunk.isSome = true → (∀ l ∈ bs, bodyLineOk l) →
    parseLoop (bs ++ rest) st =
      parseLoop rest { st with current_hunk_lines := st.current_hunk_lines ++ bs } := by
  intro bs
  induction bs with
  | nil => intro rest st _ _; simp
  | cons l bs' ih =>
    intro rest st hsome hb
    have hbl := hb l (List.mem_cons_self _ _)
    have h3 : ¬ (("--- ".toList).isPrefixOf l = true) := by
      simpa using hbl.2.1
    rw [List.cons_append, parseLoop_not_header_enh _ _ _ h3, stepOther_body l st hsome hbl]
    rw [ih rest { st with current_hunk_lines := st.current_hunk_lines ++ [l] } hsome
      (fun x hx => hb x (List.mem_cons_of_mem _ hx))]
    congr 1
    simp

lemma body_seg_mid (bs rest : List Line) (fcs : List FileChange) (cf : Option (Line × Line))
    (hks : List DiffHunk) (chl : List Line) (q : Nat × Option Nat × Nat × Option Nat)
    (hb : ∀ l ∈ bs, bodyLineOk l) :
    parseLoop (bs ++ rest) ⟨fcs, cf, hks, some q, chl⟩ =
      parseLoop rest ⟨fcs, cf, hks, some q, chl ++ bs⟩ :=
  body_seg bs rest ⟨fcs, cf, hks, some q, chl⟩ rfl hb

lemma body_seg_end (bs : List Line) (fcs : List FileChange) (cf : Option (Line × Line))
    (hks : List DiffHunk) (chl : List Line) (q : Nat × Option Nat × Nat × Option Nat)
    (hb : ∀ l ∈ bs, bodyLineOk l) :
    parseLoop bs ⟨fcs, cf, hks, some q, chl⟩ =
      flushFile ⟨fcs, cf, hks, some q, chl ++ bs⟩ := by
  have h := body_seg_mid bs [] fcs cf hks chl q hb
  rw [List.append_nil] at h
  exact h

end Enh

/-- **C1** (amended, for `src/main_enhanced.py`): a diff text of two
file-header/hunk blocks parses into exactly the two corresponding
`FileChange` entries in source order — `main_enhanced.py`'s flush needs
only `current_file`, so the pending single hunk of each block is kept.
(For `src/main.py` the claim fails: see `c1_counterexample`.) -/
theorem c1_two_blocks
    (p1 q1 p2 q2 hdr1 hdr2 : Line) (b1 b2 : List Line)
    (quad1 quad2 : Nat × Option Nat × Nat × Option Nat)
    (hh1 : matchHunkHeader hdr1 = some quad1) (hh2 : matchHunkHeader hdr2 = some quad2)
    (hb1ne : b1 ≠ []) (hb2ne : b2 ≠ [])
    (hb1 : ∀ l ∈ b1, bodyLineOk l) (hb2 : ∀ l ∈ b2, bodyLineOk l)
    (hp1 : '\n' ∉ p1) (hq1 : '\n' ∉ q1) (hp2 : '\n' ∉ p2) (hq2 : '\n' ∉ q2)
    (hn1 : '\n' ∉ hdr1) (hn2 : '\n' ∉ hdr2)
    (hstrip : pyStrip (renderTwoBlocks p1 q1 hdr1 b1 p2 q2 hdr2 b2) =
      renderTwoBlocks p1 q1 hdr1 b1 p2 q2 hdr2 b2) :
    Enh.parse_diff (renderTwoBlocks p1 q1 hdr1 b1 p2 q2 hdr2 b2) =
      [⟨Enh.pathOf ("--- ".toList ++ p1), Enh.pathOf ("+++ ".toList ++ q1),
          [mkHunk quad1 b1], false, false⟩,
        ⟨Enh.pathOf ("--- ".toList ++ p2), Enh.pathOf ("+++ ".toList ++ q2),
          [mkHunk quad2 b2], false, false⟩] := by
  have hnp : ∀ (pre p : Line), '\n' ∉ pre → '\n' ∉ p → '\n' ∉ pre ++ p := by
    intro pre p h1 h2 hm
    exact (List.mem_append.mp hm).elim h1 h2
  have hmem : ∀ l ∈ blockLines p1 q1 hdr1 b1 ++ blockLines p2 q2 hdr2 b2, '\n' ∉ l := by
    intro l hl
    rcases List.mem_append.mp hl with hl | hl <;>
      simp only [blockLines, List.mem_cons] at hl
    · rcases hl with rfl | rfl | rfl | hmm
      · exact hnp _ _ (by decide) hp1
      · exact hnp _ _ (by decide) hq1
      · exact hn1
      · exact (hb1 l hmm).2.2.2
    · rcases hl with rfl | rfl | rfl | hmm
      · exact hnp _ _ (by decide) hp2
      · exact hnp _ _ (by decide) hq2
      · exact hn2
      · exact (hb2 l hmm).2.2.2
  have hsplit : splitOnChar '\n' (renderTwoBlocks p1 q1 hdr1 b1 p2 q2 hdr2 b2) =
      blockLines p1 q1 hdr1 b1 ++ blockLines p2 q2 hdr2 b2 :=
    unsplit_split _ (by simp [blockLines]) hmem
  have hrne : renderTwoBlocks p1 q1 hdr1 b1 p2 q2 hdr2 b2 ≠ [] := by
    unfold renderTwoBlocks blockLines
    simp [unsplit]
  obtain ⟨r1, hr1⟩ := matchHunkHeader_shape hh1
  obtain ⟨r2, hr2⟩ := matchHunkHeader_shape hh2
  subst hr1
  subst hr2
  unfold Enh.parse_diff
  rw [hstrip, if_neg hrne, hsplit]
  simp only [blockLines, List.cons_append]
  rw [Enh.parseLoop_cons2_header _ _ _ _ (dash4_pre p1) (plus4_pre q1)]
  unfold Enh.headerState2
  rw [show Enh.flushFile initPState = [] from rfl]
  rw [Enh.parseLoop_not_header_enh _ _ _ (not_dash_pre_of_at r1)]
  rw [Enh.stepOther_hunkHeader _ _ _ _ _ quad1 hh1]
  rw [Enh.body_seg_mid b1 _ _ _ _ _ quad1 hb1]
  simp only [List.nil_append]
  rw [Enh.parseLoop_cons2_header _ _ _ _ (dash4_pre p2) (plus4_pre q2)]
  unfold Enh.headerState2
  have hflush1 : Enh.flushFile
      ⟨[], some (Enh.pathOf ("--- ".toList ++ p1), Enh.pathOf ("+++ ".toList ++ q1)),
        [], some quad1, b1⟩ =
      [⟨Enh.pathOf ("--- ".toList ++ p1), Enh.pathOf ("+++ ".toList ++ q1),
        [mkHunk quad1 b1], false, false⟩] := by
    unfold Enh.flushFile
    simp [List.isEmpty_iff, hb1ne]
  rw [hflush1]
  rw [Enh.parseLoop_not_header_enh _ _ _ (not_dash_pre_of_at r2)]
  rw [Enh.stepOther_hunkHeader _ _ _ _ _ quad2 hh2]
  rw [Enh.body_seg_end b2 _ _ _ _ quad2 hb2]
  simp only [List.nil_append]
  unfold Enh.flushFile
  simp [List.isEmpty_iff, hb2ne]

/-- Witness for `c1_two_blocks` on a concrete two-block diff. -/
theorem c1_witness :
    Enh.parse_diff (renderTwoBlocks "a/f1".toList "b/f1".toList "@@ -1 +1 @@".toList
        ["-x".toList, "+y".toList] "a/f2".toList "b/f2".toList "@@ -1 +1 @@".toList
        ["-u".toList, "+w".toList]) =
      [⟨"f1".toList, "f1".toList, [⟨1, 1, 1, 1, ["-x".toList, "+y".toList]⟩], false, false⟩,
        ⟨"f2".toList, "f2".toList, [⟨1, 1, 1, 1, ["-u".toList, "+w".toList]⟩], false, false⟩] :=
  c1_two_blocks "a/f1".toList "b/f1".toList "a/f2".toList "b/f2".toList
    "@@ -1 +1 @@".toList "@@ -1 +1 @@".toList
    ["-x".toList, "+y".toList] ["-u".toList, "+w".toList]
    (1, none, 1, none) (1, none, 1, none)
    (by decide) (by decide) (by decide) (by decide)
    (by decide) (by decide)
    (by decide) (by decide) (by decide) (by decide) (by decide) (by decide)
    (by decide)

/-- **C1** counterexample for `src/main.py`: on the same kind of two-block
diff, `parse_diff` returns no entries at all — at each flush point the
single hunk of the current file is still pending in `current_hunk`, so
`current_hunks` is empty and the file is dropped. -/
theorem c1_counterexample :
    Main.parse_diff (renderTwoBlocks "a/f1".toList "b/f1".toList "@@ -1 +1 @@".toList
        ["-x".toList, "+y".toList] "a/f2".toList "b/f2".toList "@@ -1 +1 @@".toList
        ["-u".toList, "+w".toList]) = [] := by
  rfl

/-- **C4**: on every input — however malformed — both `parse_diff`
implementations terminate and return a list of `FileChange`s without
raising: the indexed, fuelled mirror of each loop (with `IndexError`
modelled on every subscript) returns `.ok` of exactly the parsed list. -/
theorem c4_parse_never_raises (t : Line) :
    Main.parse_diffE t = .ok (Main.parse_diff t) ∧
      Enh.parse_diffE t = .ok (Enh.parse_diff t) := by
  constructor
  · unfold Main.parse_diffE Main.parse_diff
    split
    · rfl
    · rw [Main.parseLoopE_eq _ _ 0 initPState (by omega)]
      simp [List.drop_zero]
  · unfold Enh.parse_diffE Enh.parse_diff
    split
    · rfl
    · rw [Enh.parseLoopE_eq_enh _ _ 0 initPState (by omega)]
      simp [List.drop_zero]

end DiffAsst
